import Mathlib

/-!
Verification of the r/place timelapse frame generator (`generate.py`).

The development shallowly embeds the program's core: the fixed 16-entry
palette, the blacklist of degenerate timestamps, the cropping canvas in its
two variants (`FastLoadCanvas`, the deferred-render strategy, and
`FastSaveCanvas`, the live-render strategy), the 16-byte record decoder, the
boundary-yielding scan of `load_diff`, and the three export policies of
`main` (latest, explicit timestamps, interval).

Python exceptions are modelled by `Except PyErr`: `IndexError` from list or
image indexing, `KeyError` from a palette lookup, and `struct.error` from
unpacking a short record.  Mutable lists become functional updates via
`List.set`; a PIL image is a list of rows of RGB triples, written through
`putpixel` with the PIL coordinate convention (column first).
-/

/-- The Python exceptions the embedded code can raise. -/
inductive PyErr : Type where
  | indexError : PyErr
  | keyError : PyErr
  | structError : PyErr
deriving DecidableEq, Repr

instance {ε α : Type} [DecidableEq ε] [DecidableEq α] : DecidableEq (Except ε α)
  | .error a, .error b =>
    if h : a = b then .isTrue (by rw [h])
    else .isFalse (fun hc => by cases hc; exact h rfl)
  | .error _, .ok _ => .isFalse (fun hc => by cases hc)
  | .ok _, .error _ => .isFalse (fun hc => by cases hc)
  | .ok a, .ok b =>
    if h : a = b then .isTrue (by rw [h])
    else .isFalse (fun hc => by cases hc; exact h rfl)

/-- An RGB triple, as produced by `hexify`. -/
abbrev RGB := Nat × Nat × Nat

/-- The `COLORS` dictionary: color code → RGB triple (hex values decoded).
`none` models the `KeyError` raised by a lookup of an absent key. -/
def COLORS : Nat → Option RGB
  | 0 => some (255, 255, 255)
  | 1 => some (228, 228, 228)
  | 2 => some (136, 136, 136)
  | 3 => some (34, 34, 34)
  | 4 => some (255, 167, 209)
  | 5 => some (229, 0, 0)
  | 6 => some (229, 149, 0)
  | 7 => some (160, 106, 66)
  | 8 => some (229, 217, 0)
  | 9 => some (148, 224, 68)
  | 10 => some (2, 190, 1)
  | 11 => some (0, 211, 221)
  | 12 => some (0, 131, 199)
  | 13 => some (0, 0, 234)
  | 14 => some (207, 110, 228)
  | 15 => some (130, 0, 128)
  | _ => none

/-- Total palette lookup used only to state properties (defaults to black). -/
def colorD (c : Nat) : RGB := (COLORS c).getD (0, 0, 0)

/-- `BLACKLISTED_TIMESTAMPS`: the single known blank first frame. -/
def BLACKLISTED_TIMESTAMPS : List Nat := [1490986860]

/-- One 16-byte event record: four little-endian u32 fields. -/
structure Record : Type where
  timestamp : Nat
  x : Nat
  y : Nat
  color : Nat
deriving DecidableEq, Repr

/-- The capture area, `((x1, y1), (x2, y2))` with inclusive corners. -/
structure Area : Type where
  x1 : Nat
  y1 : Nat
  x2 : Nat
  y2 : Nat
deriving DecidableEq, Repr

namespace Area

/-- `size_x = end[0] - start[0] + 1`. -/
def sizeX (a : Area) : Nat := a.x2 - a.x1 + 1

/-- `size_y = end[1] - start[1] + 1`. -/
def sizeY (a : Area) : Nat := a.y2 - a.y1 + 1

/-- The well-formedness enforced by `format_area` on CLI input. -/
def valid (a : Area) : Prop :=
  a.x1 ≤ a.x2 ∧ a.y1 ≤ a.y2 ∧ a.x2 ≤ 999 ∧ a.y2 ≤ 999

instance (a : Area) : Decidable a.valid := by
  unfold valid; infer_instance

end Area

/-- A canvas grid: the `_pixels` list of lists of color codes. -/
abbrev Grid := List (List Nat)

/-- Read `_pixels[lx][ly]` without raising. -/
def cell (g : Grid) (lx ly : Nat) : Option Nat :=
  (g[lx]?).bind fun row => row[ly]?

/-- The shape `_pixels` has at construction: `size_y` rows of `size_x`
color codes each. -/
def GridShape (a : Area) (g : Grid) : Prop :=
  g.length = a.sizeY ∧ ∀ row ∈ g, row.length = a.sizeX

instance (a : Area) (g : Grid) : Decidable (GridShape a g) := by
  unfold GridShape; infer_instance

namespace BaseCanvas

/-- `BaseCanvas.__init__`: a `size_y`-long list of `size_x`-long rows of 0. -/
def init (a : Area) : Grid :=
  List.replicate a.sizeY (List.replicate a.sizeX 0)

/-- `BaseCanvas.set` (grid part): skip coordinates outside the area,
translate by the area's origin, then execute `self._pixels[x][y] = color`,
which raises `IndexError` when a list index is out of range. -/
def set (a : Area) (g : Grid) (x y color : Nat) : Except PyErr Grid :=
  if x < a.x1 ∨ a.x2 < x then .ok g
  else if y < a.y1 ∨ a.y2 < y then .ok g
  else
    let lx := x - a.x1
    let ly := y - a.y1
    match g[lx]? with
    | none => .error .indexError
    | some row =>
      if ly < row.length then .ok (g.set lx (row.set ly color))
      else .error .indexError

end BaseCanvas

/-- A PIL image: a list of `height` rows, each a list of `width` RGB
triples.  `Image.new("RGB", _)` fills it with black. -/
abbrev Image := List (List RGB)

/-- Read the pixel at column `x`, row `y` without raising. -/
def pix (img : Image) (x y : Nat) : Option RGB :=
  (img[y]?).bind fun row => row[x]?

/-- The shape of a `width × height` image. -/
def ImgShape (width height : Nat) (img : Image) : Prop :=
  img.length = height ∧ ∀ row ∈ img, row.length = width

instance (w h : Nat) (img : Image) : Decidable (ImgShape w h img) := by
  unfold ImgShape; infer_instance

/-- `img.putpixel((x, y), rgb)`: PIL raises `IndexError` when the position
is outside the image. -/
def putpixel (img : Image) (x y : Nat) (rgb : RGB) : Except PyErr Image :=
  match img[y]? with
  | none => .error .indexError
  | some row =>
    if x < row.length then .ok (img.set y (row.set x rgb))
    else .error .indexError

namespace FastLoadCanvas

/-- Inner loop of `FastLoadCanvas.save`: for each `y, color` in one
`_pixels` row (row index `lx`), `img.putpixel((lx, y), COLORS[color])`. -/
def saveRow (lx : Nat) (row : List Nat) (ly : Nat) (img : Image) :
    Except PyErr Image :=
  match row with
  | [] => .ok img
  | color :: rest =>
    match COLORS color with
    | none => .error .keyError
    | some rgb =>
      match putpixel img lx ly rgb with
      | .error e => .error e
      | .ok img' => saveRow lx rest (ly + 1) img'

/-- Outer loop of `FastLoadCanvas.save`: enumerate the `_pixels` rows. -/
def saveRows (rows : Grid) (lx : Nat) (img : Image) : Except PyErr Image :=
  match rows with
  | [] => .ok img
  | row :: rest =>
    match saveRow lx row 0 img with
    | .error e => .error e
    | .ok img' => saveRows rest (lx + 1) img'

/-- `FastLoadCanvas.save`: build a fresh black `size_x × size_y` image and
paint every stored code through the palette. -/
def save (a : Area) (g : Grid) : Except PyErr Image :=
  saveRows g 0 (List.replicate a.sizeY (List.replicate a.sizeX (0, 0, 0)))

end FastLoadCanvas

/-- `FastSaveCanvas` state: the shared `_pixels` grid plus the live
`_image` raster. -/
structure FastSaveCanvas : Type where
  pixels : Grid
  image : Image
deriving DecidableEq, Repr

namespace FastSaveCanvas

/-- `FastSaveCanvas.__init__`: the base grid plus an image pre-filled with
`COLORS[0]` by the `ImageDraw.rectangle` call over the whole area. -/
def init (a : Area) : FastSaveCanvas :=
  ⟨BaseCanvas.init a,
   List.replicate a.sizeY (List.replicate a.sizeX (colorD 0))⟩

/-- `BaseCanvas.set` as inherited by `FastSaveCanvas`: the grid write,
then `after_set`, which evaluates `COLORS[color]` and calls
`self._image.putpixel((x, y), ...)` at the translated coordinates. -/
def set (a : Area) (st : FastSaveCanvas) (x y color : Nat) :
    Except PyErr FastSaveCanvas :=
  if x < a.x1 ∨ a.x2 < x then .ok st
  else if y < a.y1 ∨ a.y2 < y then .ok st
  else
    let lx := x - a.x1
    let ly := y - a.y1
    match st.pixels[lx]? with
    | none => .error .indexError
    | some row =>
      if ly < row.length then
        let pixels := st.pixels.set lx (row.set ly color)
        match COLORS color with
        | none => .error .keyError
        | some rgb =>
          match putpixel st.image lx ly rgb with
          | .error e => .error e
          | .ok image => .ok ⟨pixels, image⟩
      else .error .indexError

/-- `FastSaveCanvas.save`: the raster is already current. -/
def save (st : FastSaveCanvas) : Except PyErr Image := .ok st.image

end FastSaveCanvas

/-- Little-endian u32 from four bytes, as `struct.unpack("<I", _)`. -/
def u32le (b0 b1 b2 b3 : Nat) : Nat :=
  b0 + 256 * b1 + 65536 * b2 + 16777216 * b3

/-- `struct.unpack("<IIII", bytes)` on an exactly-16-byte buffer. -/
def unpackRecord (bytes : List Nat) : Record :=
  match bytes with
  | [a0, a1, a2, a3, b0, b1, b2, b3, c0, c1, c2, c3, d0, d1, d2, d3] =>
    ⟨u32le a0 a1 a2 a3, u32le b0 b1 b2 b3, u32le c0 c1 c2 c3,
     u32le d0 d1 d2 d3⟩
  | _ => ⟨0, 0, 0, 0⟩

/-- The decoding loop of `load_diff`: `f.read(16)` until `b""`; a
nonempty buffer shorter than 16 bytes makes `struct.unpack` raise
`struct.error`. -/
def readRecords (bs : List Nat) : Except PyErr (List Record) :=
  if bs.isEmpty then .ok []
  else if bs.length < 16 then .error .structError
  else
    match readRecords (bs.drop 16) with
    | .error e => .error e
    | .ok rs => .ok (unpackRecord (bs.take 16) :: rs)
termination_by bs.length
decreasing_by
  simp only [List.length_drop]
  omega

/-- The scanning loop of `load_diff` over decoded records, generic in the
canvas it mutates: apply `canvas.set`, skip blacklisted timestamps, and
yield each timestamp that differs from the last yielded one.  The result
collects every yield paired with the canvas state at the moment of the
yield, together with the final canvas state. -/
def loadDiffRun {σ : Type} (sf : σ → Record → Except PyErr σ) :
    List Record → Option Nat → σ → Except PyErr (List (Nat × σ) × σ)
  | [], _, c => .ok ([], c)
  | r :: rest, latest, c =>
    match sf c r with
    | .error e => .error e
    | .ok c' =>
      if r.timestamp ∈ BLACKLISTED_TIMESTAMPS then
        loadDiffRun sf rest latest c'
      else if latest = some r.timestamp then
        loadDiffRun sf rest latest c'
      else
        match loadDiffRun sf rest (some r.timestamp) c' with
        | .error e => .error e
        | .ok (ys, cf) => .ok ((r.timestamp, c') :: ys, cf)

/-- Apply `canvas.set` for every record in order, stopping at the first
raised exception; the canvas state after a plain replay of a prefix. -/
def replayE {σ : Type} (sf : σ → Record → Except PyErr σ) :
    σ → List Record → Except PyErr σ
  | c, [] => .ok c
  | c, r :: rest =>
    match sf c r with
    | .error e => .error e
    | .ok c' => replayE sf c' rest

/-- The `set` function `load_diff` drives on a `FastLoadCanvas`. -/
def deferredSet (a : Area) (g : Grid) (r : Record) : Except PyErr Grid :=
  BaseCanvas.set a g r.x r.y r.color

/-- The `set` function `load_diff` drives on a `FastSaveCanvas`. -/
def liveSet (a : Area) (st : FastSaveCanvas) (r : Record) :
    Except PyErr FastSaveCanvas :=
  FastSaveCanvas.set a st r.x r.y r.color

/-- `--latest` mode: drain `load_diff` completely on a `FastLoadCanvas`,
keeping the final grid. -/
def runLatest (a : Area) (events : List Record) :
    Except PyErr (List (Nat × Grid) × Grid) :=
  loadDiffRun (deferredSet a) events none (BaseCanvas.init a)

/-- Replay a record sequence on a `FastLoadCanvas` and render it:
the deferred-render pipeline. -/
def renderDeferred (a : Area) (events : List Record) : Except PyErr Image :=
  match replayE (deferredSet a) (BaseCanvas.init a) events with
  | .error e => .error e
  | .ok g => FastLoadCanvas.save a g

/-- Replay a record sequence on a `FastSaveCanvas` and render it:
the live-render pipeline. -/
def renderLive (a : Area) (events : List Record) : Except PyErr Image :=
  match replayE (liveSet a) (FastSaveCanvas.init a) events with
  | .error e => .error e
  | .ok st => FastSaveCanvas.save st

/-- `--timestamp` mode, as a function of the boundary sequence: returns
the exported timestamps in order, the not-found report
(`missing_timestamps` left over), and the boundaries left unscanned by the
early `break`. -/
def runTimestampMode :
    List Nat → List Nat → List Nat × List Nat × List Nat
  | [], missing => ([], missing, [])
  | t :: rest, missing =>
    if t ∈ missing then
      let m := missing.erase t
      if m.isEmpty then ([t], [], rest)
      else
        let r := runTimestampMode rest m
        (t :: r.1, r.2.1, r.2.2)
    else
      let r := runTimestampMode rest missing
      (r.1, r.2.1, r.2.2)

/-- `--interval` mode, as a function of the boundary sequence: skip a
boundary below `latest_timestamp + interval`, otherwise export it and move
the threshold. -/
def intervalExports (interval : Int) : List Nat → Int → List Nat
  | [], _ => []
  | t :: rest, latest =>
    if (t : Int) < latest + interval then intervalExports interval rest latest
    else t :: intervalExports interval rest (t : Int)

/-- `--interval` mode from the start: `latest_timestamp = -args.interval`. -/
def runInterval (interval : Int) (bs : List Nat) : List Nat :=
  intervalExports interval bs (-interval)

/-- Whether a record's absolute coordinates land on grid cell
`(lx, ly)` of area `a`. -/
def targets (a : Area) (lx ly : Nat) (r : Record) : Bool :=
  decide (a.x1 ≤ r.x ∧ r.x ≤ a.x2 ∧ a.y1 ≤ r.y ∧ r.y ≤ a.y2 ∧
    r.x - a.x1 = lx ∧ r.y - a.y1 = ly)

/-- The color the specification assigns to a cell: the color of the last
in-region record targeting it, or 0 if none does. -/
def lastColor (a : Area) (events : List Record) (lx ly : Nat) : Nat :=
  match events.reverse.find? (targets a lx ly) with
  | some r => r.color
  | none => 0

/-! ## Helper lemmas -/

lemma COLORS_eq_some_of_lt {c : Nat} (h : c < 16) : COLORS c = some (colorD c) := by
  interval_cases c <;> rfl

lemma COLORS_eq_none_of_ge {c : Nat} (h : 16 ≤ c) : COLORS c = none := by
  obtain ⟨n, rfl⟩ : ∃ n, c = n + 16 := ⟨c - 16, by omega⟩
  rfl

lemma gridShape_init (a : Area) : GridShape a (BaseCanvas.init a) := by
  constructor
  · simp [BaseCanvas.init]
  · intro row hrow
    have := List.eq_of_mem_replicate hrow
    simp [this]

lemma cell_init (a : Area) (lx ly : Nat) (hx : lx < a.sizeY) (hy : ly < a.sizeX) :
    cell (BaseCanvas.init a) lx ly = some 0 := by
  simp [cell, BaseCanvas.init, List.getElem?_replicate, hx, hy]

/-- On a square area, the grid write of `BaseCanvas.set` always succeeds,
preserves the grid shape, and changes exactly the targeted cell. -/
lemma deferredSet_square (a : Area) (hsq : a.sizeX = a.sizeY) (g : Grid)
    (hg : GridShape a g) (r : Record) :
    ∃ g', deferredSet a g r = .ok g' ∧ GridShape a g' ∧
      ∀ lx ly, cell g' lx ly =
        if targets a lx ly r then some r.color else cell g lx ly := by
  obtain ⟨hlen, hrows⟩ := hg
  have hsx : a.sizeX = a.x2 - a.x1 + 1 := rfl
  have hsy : a.sizeY = a.y2 - a.y1 + 1 := rfl
  unfold deferredSet BaseCanvas.set
  by_cases hx : r.x < a.x1 ∨ a.x2 < r.x
  · refine ⟨g, by simp [hx], ⟨hlen, hrows⟩, ?_⟩
    intro lx ly
    have ht : targets a lx ly r = false := by
      simp only [targets, decide_eq_false_iff_not]
      intro hcon
      omega
    simp [ht]
  · by_cases hy : r.y < a.y1 ∨ a.y2 < r.y
    · refine ⟨g, by simp [hx, hy], ⟨hlen, hrows⟩, ?_⟩
      intro lx ly
      have ht : targets a lx ly r = false := by
        simp only [targets, decide_eq_false_iff_not]
        intro hcon
        omega
      simp [ht]
    · have hlx : r.x - a.x1 < g.length := by omega
      have hrowmem : g[r.x - a.x1] ∈ g := List.getElem_mem hlx
      have hrowlen : (g[r.x - a.x1]).length = a.sizeX := hrows _ hrowmem
      have hly : r.y - a.y1 < (g[r.x - a.x1]).length := by omega
      have hget : g[r.x - a.x1]? = some g[r.x - a.x1] := List.getElem?_eq_getElem hlx
      refine ⟨g.set (r.x - a.x1) ((g[r.x - a.x1]).set (r.y - a.y1) r.color),
        ?_, ?_, ?_⟩
      · simp only [if_neg hx, if_neg hy, hget, if_pos hly]
      · refine ⟨by simp [hlen], ?_⟩
        intro row hrow
        rcases List.mem_or_eq_of_mem_set hrow with h | h
        · exact hrows _ h
        · simp [h, hrowlen]
      · intro lx ly
        by_cases htx : lx = r.x - a.x1
        · subst htx
          unfold cell
          rw [List.getElem?_set_eq hlx]
          by_cases hty : ly = r.y - a.y1
          · subst hty
            have ht : targets a (r.x - a.x1) (r.y - a.y1) r = true := by
              unfold targets
              rw [decide_eq_true_eq]
              exact ⟨by omega, by omega, by omega, by omega, rfl, rfl⟩
            simp [ht, List.getElem?_set_eq hly]
          · have ht : targets a (r.x - a.x1) ly r = false := by
              simp only [targets, decide_eq_false_iff_not]
              intro hcon
              exact hty hcon.2.2.2.2.2.symm
            simp [ht,
              List.getElem?_set_ne (show r.y - a.y1 ≠ ly from fun h => hty h.symm),
              hget]
        · have ht : targets a lx ly r = false := by
            simp only [targets, decide_eq_false_iff_not]
            intro hcon
            exact htx hcon.2.2.2.2.1.symm
          unfold cell
          rw [List.getElem?_set_ne (show r.x - a.x1 ≠ lx from fun h => htx h.symm)]
          simp [ht]

/-- Replaying a record list on a square grid never raises, and leaves each
cell holding the last color written to it. -/
lemma replay_square (a : Area) (hsq : a.sizeX = a.sizeY) :
    ∀ (events : List Record) (g : Grid), GridShape a g →
      ∃ g', replayE (deferredSet a) g events = .ok g' ∧ GridShape a g' ∧
        ∀ lx ly, cell g' lx ly =
          match events.reverse.find? (targets a lx ly) with
          | some r => some r.color
          | none => cell g lx ly := by
  intro events
  induction events with
  | nil =>
    intro g hg
    exact ⟨g, rfl, hg, fun lx ly => by simp⟩
  | cons r rest ih =>
    intro g hg
    obtain ⟨g1, hset, hg1, hcell1⟩ := deferredSet_square a hsq g hg r
    obtain ⟨g', hrep, hg', hcell⟩ := ih g1 hg1
    refine ⟨g', ?_, hg', ?_⟩
    · simp [replayE, hset, hrep]
    · intro lx ly
      have hrev : (r :: rest).reverse = rest.reverse ++ [r] := by simp
      rw [hrev, hcell lx ly, List.find?_append]
      cases hfind : rest.reverse.find? (targets a lx ly) with
      | some r' => simp [Option.or]
      | none =>
        rw [hcell1 lx ly]
        cases ht : targets a lx ly r <;> simp [List.find?, ht, Option.or]

/-- A successful plain replay yields the same final canvas as draining the
`load_diff` generator. -/
lemma loadDiffRun_of_replay {σ : Type} (sf : σ → Record → Except PyErr σ) :
    ∀ (records : List Record) (latest : Option Nat) (c cf : σ),
      replayE sf c records = .ok cf →
      ∃ ys, loadDiffRun sf records latest c = .ok (ys, cf) := by
  intro records
  induction records with
  | nil =>
    intro latest c cf h
    simp only [replayE] at h
    cases h
    exact ⟨[], rfl⟩
  | cons r rest ih =>
    intro latest c cf h
    simp only [replayE] at h
    cases hsf : sf c r with
    | error e => rw [hsf] at h; cases h
    | ok c' =>
      rw [hsf] at h
      by_cases hbl : r.timestamp ∈ BLACKLISTED_TIMESTAMPS
      · obtain ⟨ys, hrun⟩ := ih latest c' cf h
        exact ⟨ys, by simp [loadDiffRun, hsf, hbl, hrun]⟩
      · by_cases hlat : latest = some r.timestamp
        · subst hlat
          obtain ⟨ys, hrun⟩ := ih (some r.timestamp) c' cf h
          exact ⟨ys, by simp [loadDiffRun, hsf, hbl, hrun]⟩
        · obtain ⟨ys, hrun⟩ := ih (some r.timestamp) c' cf h
          exact ⟨(r.timestamp, c') :: ys,
            by simp [loadDiffRun, hsf, hbl, hlat, hrun]⟩

/-! ## Claim theorems (easier group) -/

/-- C3.  Cropping contract: a `set` with absolute coordinates outside the
configured area leaves the canvas bit-for-bit unchanged and raises nothing;
a `set` inside the area behaves exactly like a `set` on an uncropped canvas
of the same dimensions at the translated grid-local coordinate. -/
theorem cropping_contract (a : Area) (g : Grid) (x y color : Nat) :
    ((x < a.x1 ∨ a.x2 < x ∨ y < a.y1 ∨ a.y2 < y) →
      BaseCanvas.set a g x y color = .ok g) ∧
    (a.x1 ≤ x → x ≤ a.x2 → a.y1 ≤ y → y ≤ a.y2 →
      BaseCanvas.set a g x y color =
        BaseCanvas.set ⟨0, 0, a.x2 - a.x1, a.y2 - a.y1⟩ g
          (x - a.x1) (y - a.y1) color) := by
  constructor
  · intro h
    by_cases hx : x < a.x1 ∨ a.x2 < x
    · simp [BaseCanvas.set, hx]
    · have hy : y < a.y1 ∨ a.y2 < y := by
        rcases h with h | h | h | h
        · exact absurd (Or.inl h) hx
        · exact absurd (Or.inr h) hx
        · exact Or.inl h
        · exact Or.inr h
      simp [BaseCanvas.set, hx, hy]
  · intro h1 h2 h3 h4
    have hx : ¬(x < a.x1 ∨ a.x2 < x) := by omega
    have hy : ¬(y < a.y1 ∨ a.y2 < y) := by omega
    have hx' : ¬(x - a.x1 < 0 ∨ a.x2 - a.x1 < x - a.x1) := by omega
    have hy' : ¬(y - a.y1 < 0 ∨ a.y2 - a.y1 < y - a.y1) := by omega
    simp only [BaseCanvas.set, if_neg hx, if_neg hy, if_neg hx', if_neg hy',
      Nat.sub_zero]

/-- Witness for C3: on area `(1,1)-(2,2)` with a 2×2 grid, setting the
absolute pixel `(1, 2)` equals setting `(0, 1)` on the uncropped area. -/
theorem cropping_contract_witness :
    BaseCanvas.set ⟨1, 1, 2, 2⟩ [[0, 0], [0, 0]] 1 2 7 =
      BaseCanvas.set ⟨0, 0, 1, 1⟩ [[0, 0], [0, 0]] 0 1 7 :=
  (cropping_contract ⟨1, 1, 2, 2⟩ [[0, 0], [0, 0]] 1 2 7).2
    (by decide) (by decide) (by decide) (by decide)

lemma intervalExports_spacing (interval : Int) :
    ∀ (bs : List Nat) (latest : Int),
      List.Chain' (fun s t : Nat => (s : Int) + interval ≤ (t : Int))
        (intervalExports interval bs latest) ∧
      (∀ t ∈ (intervalExports interval bs latest).head?,
        latest + interval ≤ (t : Int)) := by
  intro bs
  induction bs with
  | nil => intro latest; simp [intervalExports]
  | cons t rest ih =>
    intro latest
    by_cases hlt : (t : Int) < latest + interval
    · simpa [intervalExports, hlt] using ih latest
    · have h1 := (ih (t : Int)).1
      have h2 := (ih (t : Int)).2
      refine ⟨?_, ?_⟩
      · simp only [intervalExports, if_neg hlt]
        rw [List.chain'_cons']
        exact ⟨fun y hy => h2 y hy, h1⟩
      · intro t' ht'
        simp only [intervalExports, if_neg hlt, List.head?_cons,
          Option.mem_def, Option.some.injEq] at ht'
        subst ht'
        omega

/-- C5.  Interval-mode spacing: with a positive interval, any two
consecutive exported timestamps are at least the interval apart. -/
theorem interval_mode_spacing (interval : Int) (hI : 0 < interval)
    (bs : List Nat) :
    List.Chain' (fun s t : Nat => (s : Int) + interval ≤ (t : Int))
      (runInterval interval bs) :=
  (intervalExports_spacing interval bs (-interval)).1

/-- Witness for C5: the spec's interval example, `interval = 10` over
boundaries `[0, 5, 12]`, exports `[0, 12]`, whose consecutive gap is ≥ 10. -/
theorem interval_mode_spacing_witness :
    List.Chain' (fun s t : Nat => (s : Int) + 10 ≤ (t : Int))
      (runInterval 10 [0, 5, 12]) :=
  interval_mode_spacing 10 (by decide) [0, 5, 12]

lemma readRecords_spec :
    ∀ (n : Nat) (bs : List Nat), bs.length ≤ n →
      (bs.length % 16 = 0 →
        ∃ rs, readRecords bs = .ok rs ∧ rs.length = bs.length / 16) ∧
      (bs.length % 16 ≠ 0 → readRecords bs = .error .structError) := by
  intro n
  induction n with
  | zero =>
    intro bs hlen
    have hnil : bs = [] := List.eq_nil_of_length_eq_zero (by omega)
    subst hnil
    exact ⟨fun _ => ⟨[], by rw [readRecords]; simp, by simp⟩, fun h => absurd rfl h⟩
  | succ n ih =>
    intro bs hlen
    by_cases hemp : bs.isEmpty
    · have hnil : bs = [] := List.isEmpty_iff.mp hemp
      subst hnil
      exact ⟨fun _ => ⟨[], by rw [readRecords]; simp, by simp⟩, fun h => absurd rfl h⟩
    · have hpos : 0 < bs.length := by
        cases bs with
        | nil => simp at hemp
        | cons _ _ => simp
      by_cases hshort : bs.length < 16
      · have hmod : bs.length % 16 = bs.length := Nat.mod_eq_of_lt hshort
        refine ⟨fun h => absurd (by omega : bs.length = 0) (by omega), ?_⟩
        intro _
        rw [readRecords]
        simp [hemp, hshort]
      · have hdrop : (bs.drop 16).length = bs.length - 16 := by
          simp [List.length_drop]
        have hmod : (bs.drop 16).length % 16 = bs.length % 16 := by
          rw [hdrop]; omega
        have hrec := ih (bs.drop 16) (by rw [hdrop]; omega)
        constructor
        · intro h
          have hm0 : (bs.drop 16).length % 16 = 0 := by rw [hmod]; exact h
          obtain ⟨rs, hok, hrslen⟩ := hrec.1 hm0
          rw [hdrop] at hrslen
          clear hrec
          refine ⟨unpackRecord (bs.take 16) :: rs, ?_, ?_⟩
          · rw [readRecords]
            simp [hemp, hshort, hok]
          · simp only [List.length_cons, hrslen]
            omega
        · intro h
          have hm1 : (bs.drop 16).length % 16 ≠ 0 := by rw [hmod]; exact h
          have herr := hrec.2 hm1
          clear hrec
          rw [readRecords]
          simp [hemp, hshort, herr]

/-- C8.  Decoder end-of-stream behavior: a byte stream whose length is a
multiple of 16 (including zero) decodes normally into `length / 16`
records, and any other length — in particular a nonzero remainder shorter
than 16 bytes — raises the malformed-stream (`struct.error`) failure. -/
theorem decoder_eos_behavior (bs : List Nat) :
    (bs.length % 16 = 0 →
      ∃ rs, readRecords bs = .ok rs ∧ rs.length = bs.length / 16) ∧
    (bs.length % 16 ≠ 0 → readRecords bs = .error .structError) :=
  readRecords_spec bs.length bs le_rfl

/-- Witness for C8: the empty stream decodes to no records, and a 3-byte
remainder is a malformed stream. -/
theorem decoder_eos_behavior_witness :
    readRecords [] = .ok [] ∧ readRecords [1, 2, 3] = .error .structError := by
  constructor
  · obtain ⟨rs, hok, hlen⟩ := (decoder_eos_behavior []).1 (by decide)
    have : rs = [] := List.eq_nil_of_length_eq_zero (by simpa using hlen)
    rwa [this] at hok
  · exact (decoder_eos_behavior [1, 2, 3]).2 (by decide)

/-- C10.  On a square area every in-region `set` stores its color without
raising, but the grid is allocated as `size_y` rows of `size_x` columns
while `set` indexes it as `_pixels[x][y]`, so a non-square area has
in-region coordinates on which `set` raises `IndexError`. -/
theorem square_set_safe_nonsquare_set_unsafe :
    (∀ a : Area, a.sizeX = a.sizeY → ∀ g : Grid, GridShape a g →
      ∀ x y color : Nat, a.x1 ≤ x → x ≤ a.x2 → a.y1 ≤ y → y ≤ a.y2 →
        ∃ g', BaseCanvas.set a g x y color = .ok g' ∧
          cell g' (x - a.x1) (y - a.y1) = some color) ∧
    ((⟨0, 0, 1, 0⟩ : Area).sizeX ≠ (⟨0, 0, 1, 0⟩ : Area).sizeY ∧
      BaseCanvas.set ⟨0, 0, 1, 0⟩ (BaseCanvas.init ⟨0, 0, 1, 0⟩) 1 0 7 =
        .error .indexError) := by
  constructor
  · intro a hsq g hg x y color h1 h2 h3 h4
    obtain ⟨g', hset, _, hcell⟩ :=
      deferredSet_square a hsq g hg ⟨0, x, y, color⟩
    refine ⟨g', hset, ?_⟩
    rw [hcell]
    have ht : targets a (x - a.x1) (y - a.y1) ⟨0, x, y, color⟩ = true := by
      unfold targets
      rw [decide_eq_true_eq]
      exact ⟨h1, h2, h3, h4, rfl, rfl⟩
    simp [ht]
  · exact ⟨by decide, by decide⟩

/-- Witness for C10: on the square 1×1 area a set at the corner succeeds. -/
theorem square_set_safe_witness :
    ∃ g', BaseCanvas.set ⟨0, 0, 0, 0⟩ [[0]] 0 0 3 = .ok g' ∧
      cell g' 0 0 = some 3 :=
  square_set_safe_nonsquare_set_unsafe.1 ⟨0, 0, 0, 0⟩ (by decide) [[0]]
    (by decide) 0 0 3 (by decide) (by decide) (by decide) (by decide)

lemma loadDiffRun_cons {σ : Type} (sf : σ → Record → Except PyErr σ)
    (r : Record) (rest : List Record) (latest : Option Nat) (c c' : σ)
    (hsf : sf c r = .ok c') :
    loadDiffRun sf (r :: rest) latest c =
      if r.timestamp ∈ BLACKLISTED_TIMESTAMPS then
        loadDiffRun sf rest latest c'
      else if latest = some r.timestamp then
        loadDiffRun sf rest latest c'
      else
        match loadDiffRun sf rest (some r.timestamp) c' with
        | .error e => .error e
        | .ok (ys, cf) => .ok ((r.timestamp, c') :: ys, cf) := by
  simp [loadDiffRun, hsf]

lemma loadDiffRun_cons_error {σ : Type} (sf : σ → Record → Except PyErr σ)
    (r : Record) (rest : List Record) (latest : Option Nat) (c : σ)
    (e : PyErr) (hsf : sf c r = .error e) :
    loadDiffRun sf (r :: rest) latest c = .error e := by
  simp [loadDiffRun, hsf]

lemma loadDiffRun_yields_not_blacklisted {σ : Type}
    (sf : σ → Record → Except PyErr σ) :
    ∀ (records : List Record) (latest : Option Nat) (c : σ)
      (ys : List (Nat × σ)) (cf : σ),
      loadDiffRun sf records latest c = .ok (ys, cf) →
      ∀ p ∈ ys, p.1 ∉ BLACKLISTED_TIMESTAMPS := by
  intro records
  induction records with
  | nil =>
    intro latest c ys cf h
    simp only [loadDiffRun, Except.ok.injEq, Prod.mk.injEq] at h
    obtain ⟨h1, _⟩ := h
    subst h1
    intro p hp
    simp at hp
  | cons r rest ih =>
    intro latest c ys cf h p hp
    cases hsf : sf c r with
    | error e => rw [loadDiffRun_cons_error sf r rest latest c e hsf] at h; cases h
    | ok c' =>
      rw [loadDiffRun_cons sf r rest latest c c' hsf] at h
      by_cases hbl : r.timestamp ∈ BLACKLISTED_TIMESTAMPS
      · rw [if_pos hbl] at h
        exact ih latest c' ys cf h p hp
      · rw [if_neg hbl] at h
        by_cases hlat : latest = some r.timestamp
        · rw [if_pos hlat] at h
          exact ih latest c' ys cf h p hp
        · rw [if_neg hlat] at h
          cases hrun : loadDiffRun sf rest (some r.timestamp) c' with
          | error e => rw [hrun] at h; cases h
          | ok pair =>
            obtain ⟨ys', cf'⟩ := pair
            rw [hrun] at h
            simp only [Except.ok.injEq, Prod.mk.injEq] at h
            obtain ⟨h1, _⟩ := h
            subst h1
            rcases List.mem_cons.mp hp with hp1 | hp2
            · rw [hp1]
              exact hbl
            · exact ih (some r.timestamp) c' ys' cf' hrun p hp2

/-- C7.  Blacklist invariant: a record with a blacklisted timestamp is
still applied to the canvas through `set` (the scan continues from the
mutated canvas state), yields no boundary, leaves the last-reported
timestamp untouched — and no yielded boundary ever carries a blacklisted
timestamp. -/
theorem blacklist_invariant {σ : Type} (sf : σ → Record → Except PyErr σ)
    (r : Record) (rest : List Record) (latest : Option Nat) (c c' : σ)
    (hbl : r.timestamp ∈ BLACKLISTED_TIMESTAMPS) (hset : sf c r = .ok c') :
    loadDiffRun sf (r :: rest) latest c = loadDiffRun sf rest latest c' ∧
    ∀ (records : List Record) (l0 : Option Nat) (c0 : σ)
      (ys : List (Nat × σ)) (cf : σ),
      loadDiffRun sf records l0 c0 = .ok (ys, cf) →
      ∀ p ∈ ys, p.1 ∉ BLACKLISTED_TIMESTAMPS := by
  refine ⟨?_, fun records l0 c0 ys cf h p hp =>
    loadDiffRun_yields_not_blacklisted sf records l0 c0 ys cf h p hp⟩
  simp [loadDiffRun, hset, hbl]

/-- Witness for C7: the blacklisted record `(1490986860, 0, 0, 3)` is
applied to the 1×1 canvas (the scan resumes from grid `[[3]]`) with no
boundary yielded and the latest-timestamp state still `none`. -/
theorem blacklist_invariant_witness :
    loadDiffRun (deferredSet ⟨0, 0, 0, 0⟩) [⟨1490986860, 0, 0, 3⟩] none [[0]] =
      loadDiffRun (deferredSet ⟨0, 0, 0, 0⟩) [] none [[3]] :=
  (blacklist_invariant (deferredSet ⟨0, 0, 0, 0⟩) ⟨1490986860, 0, 0, 3⟩ []
    none [[0]] [[3]] (by decide) (by decide)).1

/-- C4.  Eager boundary timing: every yielded boundary `(t, s)` of the
`load_diff` scan comes from a record index `i` such that the record at `i`
bears timestamp `t`, and the canvas state `s` visible at the yield is
exactly the replay of the first `i` records followed by the application of
record `i` itself — the previous frame's fully-applied state plus that one
record of the new frame. -/
theorem eager_boundary_timing {σ : Type} (sf : σ → Record → Except PyErr σ) :
    ∀ (records : List Record) (latest : Option Nat) (c : σ)
      (ys : List (Nat × σ)) (cf : σ),
      loadDiffRun sf records latest c = .ok (ys, cf) →
      ∀ p ∈ ys, ∃ i, ∃ hi : i < records.length,
        records[i].timestamp = p.1 ∧
        ∃ sprev, replayE sf c (records.take i) = .ok sprev ∧
          sf sprev records[i] = .ok p.2 := by
  intro records
  induction records with
  | nil =>
    intro latest c ys cf h
    simp only [loadDiffRun, Except.ok.injEq, Prod.mk.injEq] at h
    obtain ⟨h1, _⟩ := h
    subst h1
    intro p hp
    simp at hp
  | cons r rest ih =>
    intro latest c ys cf h p hp
    cases hsf : sf c r with
    | error e => rw [loadDiffRun_cons_error sf r rest latest c e hsf] at h; cases h
    | ok c' =>
      rw [loadDiffRun_cons sf r rest latest c c' hsf] at h
      have lift : (∃ i, ∃ hi : i < rest.length, rest[i].timestamp = p.1 ∧
            ∃ sprev, replayE sf c' (rest.take i) = .ok sprev ∧
              sf sprev rest[i] = .ok p.2) →
          ∃ i, ∃ hi : i < (r :: rest).length, (r :: rest)[i].timestamp = p.1 ∧
            ∃ sprev, replayE sf c ((r :: rest).take i) = .ok sprev ∧
              sf sprev (r :: rest)[i] = .ok p.2 := by
        rintro ⟨i, hi, hts, sprev, hrep, hstep⟩
        refine ⟨i + 1, by simpa using Nat.succ_lt_succ hi, ?_, sprev, ?_, ?_⟩
        · simpa using hts
        · rw [List.take_succ_cons]
          simp only [replayE, hsf]
          exact hrep
        · simpa using hstep
      by_cases hbl : r.timestamp ∈ BLACKLISTED_TIMESTAMPS
      · rw [if_pos hbl] at h
        exact lift (ih latest c' ys cf h p hp)
      · rw [if_neg hbl] at h
        by_cases hlat : latest = some r.timestamp
        · rw [if_pos hlat] at h
          exact lift (ih latest c' ys cf h p hp)
        · rw [if_neg hlat] at h
          cases hrun : loadDiffRun sf rest (some r.timestamp) c' with
          | error e => rw [hrun] at h; cases h
          | ok pair =>
            obtain ⟨ys', cf'⟩ := pair
            rw [hrun] at h
            simp only [Except.ok.injEq, Prod.mk.injEq] at h
            obtain ⟨h1, _⟩ := h
            subst h1
            rcases List.mem_cons.mp hp with hp1 | hp2
            · subst hp1
              exact ⟨0, by simp, by simp, c, by simp [replayE], by simpa using hsf⟩
            · exact lift (ih (some r.timestamp) c' ys' cf' hrun p hp2)

/-- Witness for C4: the spec's example stream
`[(100,0,0,5), (200,1,1,9)]` yields the boundary for 200 with the canvas
already holding pixel `(1,1) = 9` — the state after replaying the first
record plus exactly the first record of frame 200. -/
theorem eager_boundary_timing_witness :
    ∃ i, ∃ hi : i < ([⟨100, 0, 0, 5⟩, ⟨200, 1, 1, 9⟩] : List Record).length,
      ([⟨100, 0, 0, 5⟩, ⟨200, 1, 1, 9⟩] : List Record)[i].timestamp = 200 ∧
      ∃ sprev, replayE (deferredSet ⟨0, 0, 1, 1⟩) (BaseCanvas.init ⟨0, 0, 1, 1⟩)
          (([⟨100, 0, 0, 5⟩, ⟨200, 1, 1, 9⟩] : List Record).take i) = .ok sprev ∧
        deferredSet ⟨0, 0, 1, 1⟩ sprev
            ([⟨100, 0, 0, 5⟩, ⟨200, 1, 1, 9⟩] : List Record)[i] =
          .ok [[5, 0], [0, 9]] :=
  eager_boundary_timing (deferredSet ⟨0, 0, 1, 1⟩)
    [⟨100, 0, 0, 5⟩, ⟨200, 1, 1, 9⟩] none (BaseCanvas.init ⟨0, 0, 1, 1⟩)
    [(100, [[5, 0], [0, 0]]), (200, [[5, 0], [0, 9]])] [[5, 0], [0, 9]]
    (by decide) (200, [[5, 0], [0, 9]]) (by decide)

lemma eq_singleton_of_erase_nil {ws : List Nat} {t : Nat} (hnd : ws.Nodup)
    (ht : t ∈ ws) (he : ws.erase t = []) : ws = [t] := by
  have hlen := List.length_erase t ws
  rw [he, if_pos ht] at hlen
  have hpos : 0 < ws.length := List.length_pos_of_mem ht
  have h1 : ws.length = 1 := by simp at hlen; omega
  obtain ⟨a, ha⟩ := List.length_eq_one.mp h1
  subst ha
  simp at ht
  rw [ht]

/-- C6.  Explicit-timestamps mode: with a duplicate-free wanted list, a
wanted timestamp occurring in the boundary sequence is exported exactly
once, a wanted timestamp absent from it lands in the not-found report
exactly once, and the scan leaves a nonempty unscanned remainder only when
every wanted timestamp has been found (the early `break`). -/
theorem explicit_timestamps_mode (bs ws : List Nat) (hnd : ws.Nodup)
    (w : Nat) :
    ((runTimestampMode bs ws).1.count w =
      if w ∈ ws ∧ w ∈ bs then 1 else 0) ∧
    ((runTimestampMode bs ws).2.1.count w =
      if w ∈ ws ∧ w ∉ bs then 1 else 0) ∧
    ((runTimestampMode bs ws).2.2 ≠ [] → (runTimestampMode bs ws).2.1 = []) := by
  induction bs generalizing ws hnd with
  | nil =>
    refine ⟨by simp [runTimestampMode], ?_, by simp [runTimestampMode]⟩
    by_cases hm : w ∈ ws
    · simp [runTimestampMode, hm, List.count_eq_one_of_mem hnd hm]
    · simp [runTimestampMode, hm, List.count_eq_zero_of_not_mem hm]
  | cons t rest ih =>
    by_cases ht : t ∈ ws
    · cases hemp : (ws.erase t).isEmpty
      · -- the wanted list does not empty out: recurse on the erased list
        have hndm : (ws.erase t).Nodup := hnd.erase t
        obtain ⟨ih1, ih2, ih3⟩ := ih (ws.erase t) hndm
        have e1 : (runTimestampMode (t :: rest) ws).1 =
            t :: (runTimestampMode rest (ws.erase t)).1 := by
          simp [runTimestampMode, ht, hemp]
        have e2 : (runTimestampMode (t :: rest) ws).2.1 =
            (runTimestampMode rest (ws.erase t)).2.1 := by
          simp [runTimestampMode, ht, hemp]
        have e3 : (runTimestampMode (t :: rest) ws).2.2 =
            (runTimestampMode rest (ws.erase t)).2.2 := by
          simp [runTimestampMode, ht, hemp]
        refine ⟨?_, ?_, fun hne => by
          rw [e2]
          exact ih3 (by rw [← e3]; exact hne)⟩
        · rw [e1, List.count_cons, ih1]
          by_cases hw : w = t
          · subst hw
            have hnm : w ∉ ws.erase w := by
              rw [hnd.mem_erase_iff]
              simp
            simp [hnm, ht]
          · have hmem : (w ∈ ws.erase t ∧ w ∈ rest) ↔
                (w ∈ ws ∧ w ∈ t :: rest) := by
              rw [hnd.mem_erase_iff]
              constructor
              · rintro ⟨⟨_, h2⟩, h3⟩
                exact ⟨h2, List.mem_cons_of_mem t h3⟩
              · rintro ⟨h1, h2⟩
                rcases List.mem_cons.mp h2 with h3 | h3
                · exact absurd h3 hw
                · exact ⟨⟨hw, h1⟩, h3⟩
            have hbq : (w == t) = false := by
              simp [hw]
            simp [hbq, hmem]
            exact fun h => hw h.symm
        · rw [e2, ih2]
          by_cases hw : w = t
          · subst hw
            have hnm : w ∉ ws.erase w := by
              rw [hnd.mem_erase_iff]
              simp
            simp [hnm, ht]
          · have hmem : (w ∈ ws.erase t ∧ w ∉ rest) ↔
                (w ∈ ws ∧ w ∉ t :: rest) := by
              rw [hnd.mem_erase_iff]
              constructor
              · rintro ⟨⟨_, h2⟩, h3⟩
                refine ⟨h2, fun hmem2 => ?_⟩
                rcases List.mem_cons.mp hmem2 with h4 | h4
                · exact hw h4
                · exact h3 h4
              · rintro ⟨h1, h2⟩
                exact ⟨⟨hw, h1⟩, fun h3 => h2 (List.mem_cons_of_mem t h3)⟩
            simp [hmem]
      · -- the erased list is empty: the `break` fires after exporting `t`
        have he : ws.erase t = [] := by
          cases hws : ws.erase t with
          | nil => rfl
          | cons a l => rw [hws] at hemp; simp at hemp
        have hws : ws = [t] := eq_singleton_of_erase_nil hnd ht he
        subst hws
        have e1 : (runTimestampMode (t :: rest) [t]).1 = [t] := by
          simp [runTimestampMode, he]
        have e2 : (runTimestampMode (t :: rest) [t]).2.1 = [] := by
          simp [runTimestampMode, he]
        refine ⟨?_, ?_, fun _ => e2⟩
        · rw [e1]
          by_cases hw : w = t <;> simp [List.count_singleton, hw]
        · rw [e2]
          have hnc : ¬(w ∈ [t] ∧ w ∉ t :: rest) := by
            rintro ⟨h1, h2⟩
            simp only [List.mem_singleton] at h1
            exact h2 (by simp [h1])
          rw [if_neg hnc]
          simp
    · obtain ⟨ih1, ih2, ih3⟩ := ih ws hnd
      have e1 : (runTimestampMode (t :: rest) ws).1 =
          (runTimestampMode rest ws).1 := by
        simp [runTimestampMode, ht]
      have e2 : (runTimestampMode (t :: rest) ws).2.1 =
          (runTimestampMode rest ws).2.1 := by
        simp [runTimestampMode, ht]
      have e3 : (runTimestampMode (t :: rest) ws).2.2 =
          (runTimestampMode rest ws).2.2 := by
        simp [runTimestampMode, ht]
      have hwt : w ∈ ws → w ≠ t := fun hm heq => ht (heq ▸ hm)
      refine ⟨?_, ?_, fun hne => by
        rw [e2]
        exact ih3 (by rw [← e3]; exact hne)⟩
      · rw [e1, ih1]
        have hmem : (w ∈ ws ∧ w ∈ rest) ↔ (w ∈ ws ∧ w ∈ t :: rest) := by
          constructor
          · rintro ⟨h1, h2⟩
            exact ⟨h1, List.mem_cons_of_mem t h2⟩
          · rintro ⟨h1, h2⟩
            rcases List.mem_cons.mp h2 with h3 | h3
            · exact absurd h3 (hwt h1)
            · exact ⟨h1, h3⟩
        simp [hmem]
      · rw [e2, ih2]
        have hmem : (w ∈ ws ∧ w ∉ rest) ↔ (w ∈ ws ∧ w ∉ t :: rest) := by
          constructor
          · rintro ⟨h1, h2⟩
            refine ⟨h1, fun h3 => ?_⟩
            rcases List.mem_cons.mp h3 with h4 | h4
            · exact ht (h4 ▸ h1)
            · exact h2 h4
          · rintro ⟨h1, h2⟩
            exact ⟨h1, fun h3 => h2 (List.mem_cons_of_mem t h3)⟩
        simp [hmem]

/-- Witness for C6: boundaries `[100, 200]` with wanted set `{100}`:
timestamp 100 is exported once, nothing is reported not found, and the
scan breaks off leaving `[200]` unscanned. -/
theorem explicit_timestamps_mode_witness :
    ((runTimestampMode [100, 200] [100]).1.count 100 =
      if 100 ∈ [100] ∧ 100 ∈ [100, 200] then 1 else 0) ∧
    ((runTimestampMode [100, 200] [100]).2.1.count 100 =
      if 100 ∈ [100] ∧ 100 ∉ [100, 200] then 1 else 0) ∧
    ((runTimestampMode [100, 200] [100]).2.2 ≠ [] →
      (runTimestampMode [100, 200] [100]).2.1 = []) :=
  explicit_timestamps_mode [100, 200] [100] (by decide) 100

/-- C1.  Latest mode: draining the boundary sequence to completion always
succeeds on a valid square area, and the final grid holds, in every cell,
the color of the last in-region record targeting that cell (cells never
targeted keep the initial color code 0). -/
theorem latest_mode_final_state (a : Area) (hv : a.valid)
    (hsq : a.sizeX = a.sizeY) (events : List Record) :
    ∃ ys g, runLatest a events = .ok (ys, g) ∧
      ∀ lx ly, lx < a.sizeX → ly < a.sizeY →
        cell g lx ly = some (lastColor a events lx ly) := by
  obtain ⟨g, hrep, hg, hcell⟩ :=
    replay_square a hsq events (BaseCanvas.init a) (gridShape_init a)
  obtain ⟨ys, hrun⟩ :=
    loadDiffRun_of_replay (deferredSet a) events none (BaseCanvas.init a) g hrep
  refine ⟨ys, g, hrun, ?_⟩
  intro lx ly hlx hly
  rw [hcell lx ly]
  unfold lastColor
  cases hfind : events.reverse.find? (targets a lx ly) with
  | some r => rfl
  | none => exact cell_init a lx ly (by omega) (by omega)

/-- Witness for C1: the spec's latest-mode example, stream
`[(100,0,0,5)]` on the square area `(0,0)-(1,1)`. -/
theorem latest_mode_final_state_witness :
    ∃ ys g, runLatest ⟨0, 0, 1, 1⟩ [⟨100, 0, 0, 5⟩] = .ok (ys, g) ∧
      ∀ lx ly, lx < Area.sizeX ⟨0, 0, 1, 1⟩ → ly < Area.sizeY ⟨0, 0, 1, 1⟩ →
        cell g lx ly = some (lastColor ⟨0, 0, 1, 1⟩ [⟨100, 0, 0, 5⟩] lx ly) :=
  latest_mode_final_state ⟨0, 0, 1, 1⟩ (by decide) (by decide) [⟨100, 0, 0, 5⟩]

/-! ## Rendering lemmas -/

lemma putpixel_ok (n : Nat) (img : Image) (him : ImgShape n n img)
    (x y : Nat) (hx : x < n) (hy : y < n) (rgb : RGB) :
    ∃ img', putpixel img x y rgb = .ok img' ∧ ImgShape n n img' ∧
      ∀ px py, pix img' px py =
        if px = x ∧ py = y then some rgb else pix img px py := by
  obtain ⟨hlen, hrows⟩ := him
  have hylen : y < img.length := by omega
  have hrowlen : (img[y]).length = n := hrows _ (List.getElem_mem hylen)
  have hget : img[y]? = some img[y] := List.getElem?_eq_getElem hylen
  refine ⟨img.set y ((img[y]).set x rgb), ?_, ⟨by simp [hlen], ?_⟩, ?_⟩
  · simp [putpixel, hget, hrowlen, hx]
  · intro row hrow
    rcases List.mem_or_eq_of_mem_set hrow with h | h
    · exact hrows _ h
    · rw [h]; simp [hrowlen]
  · intro px py
    unfold pix
    by_cases hpy : py = y
    · subst hpy
      rw [List.getElem?_set_eq hylen]
      by_cases hpx : px = x
      · subst hpx
        rw [if_pos ⟨rfl, rfl⟩]
        simp [List.getElem?_set_eq (show px < (img[py]).length by omega)]
      · rw [if_neg (fun hcon => hpx hcon.1)]
        simp [List.getElem?_set_ne (show x ≠ px from fun h => hpx h.symm), hget]
    · rw [List.getElem?_set_ne (show y ≠ py from fun h => hpy h.symm)]
      rw [if_neg (fun hcon => hpy hcon.2)]

lemma saveRow_ok (n lx : Nat) (hlx : lx < n) :
    ∀ (row : List Nat) (ly : Nat) (img : Image), ImgShape n n img →
      ly + row.length ≤ n → (∀ c ∈ row, c < 16) →
      ∃ img', FastLoadCanvas.saveRow lx row ly img = .ok img' ∧
        ImgShape n n img' ∧
        ∀ px py, pix img' px py =
          if px = lx ∧ ly ≤ py ∧ py < ly + row.length then
            (row[py - ly]?).map colorD
          else pix img px py := by
  intro row
  induction row with
  | nil =>
    intro ly img him _ _
    refine ⟨img, rfl, him, fun px py => ?_⟩
    rw [if_neg (by rintro ⟨_, h2, h3⟩; simp at h3; omega)]
  | cons c rest ihr =>
    intro ly img him hlen hc
    have hlc : (c :: rest).length = rest.length + 1 := rfl
    have hc0 : c < 16 := hc c (by simp)
    have hcol := COLORS_eq_some_of_lt hc0
    have hly : ly < n := by omega
    obtain ⟨img1, hput, him1, hpix1⟩ := putpixel_ok n img him lx ly hlx hly (colorD c)
    obtain ⟨img', hrec, him', hpix'⟩ :=
      ihr (ly + 1) img1 him1 (by omega) (fun c' hc' => hc c' (by simp [hc']))
    refine ⟨img', ?_, him', ?_⟩
    · simp only [FastLoadCanvas.saveRow, hcol, hput, hrec]
    · intro px py
      rw [hpix' px py]
      by_cases hpx : px = lx
      · subst hpx
        by_cases hrange : ly + 1 ≤ py ∧ py < ly + 1 + rest.length
        · rw [if_pos ⟨rfl, hrange.1, hrange.2⟩,
            if_pos ⟨rfl, by omega, by omega⟩]
          rw [show py - ly = (py - (ly + 1)) + 1 from by omega,
            List.getElem?_cons_succ]
        · rw [if_neg (fun hcon => hrange ⟨hcon.2.1, hcon.2.2⟩)]
          rw [hpix1]
          by_cases hpy : py = ly
          · subst hpy
            rw [if_pos ⟨rfl, rfl⟩, if_pos ⟨rfl, le_refl py, by omega⟩]
            simp [Nat.sub_self]
          · rw [if_neg (fun hcon => hpy hcon.2),
              if_neg (fun hcon => hrange ⟨by omega, by omega⟩)]
      · rw [if_neg (fun hcon => hpx hcon.1)]
        rw [hpix1, if_neg (fun hcon => hpx hcon.1),
          if_neg (fun hcon => hpx hcon.1)]

lemma saveRows_ok (n : Nat) :
    ∀ (rows : Grid) (lx : Nat) (img : Image), ImgShape n n img →
      lx + rows.length ≤ n → (∀ row ∈ rows, row.length = n) →
      (∀ row ∈ rows, ∀ c ∈ row, c < 16) →
      ∃ img', FastLoadCanvas.saveRows rows lx img = .ok img' ∧
        ImgShape n n img' ∧
        ∀ px py, pix img' px py =
          if lx ≤ px ∧ px < lx + rows.length ∧ py < n then
            ((rows[px - lx]?).bind fun row => (row[py]?).map colorD)
          else pix img px py := by
  intro rows
  induction rows with
  | nil =>
    intro lx img him _ _ _
    refine ⟨img, rfl, him, fun px py => ?_⟩
    rw [if_neg (by rintro ⟨h1, h2, _⟩; simp at h2; omega)]
  | cons row rrest ihr =>
    intro lx img him hlen hrowlen hcolors
    have hlr : (row :: rrest).length = rrest.length + 1 := rfl
    have hlx : lx < n := by omega
    have hrl : row.length = n := hrowlen row (by simp)
    obtain ⟨img1, hrow, him1, hpix1⟩ :=
      saveRow_ok n lx hlx row 0 img him (by omega) (hcolors row (by simp))
    obtain ⟨img', hrec, him', hpix'⟩ :=
      ihr (lx + 1) img1 him1 (by omega)
        (fun r hr => hrowlen r (by simp [hr]))
        (fun r hr => hcolors r (by simp [hr]))
    refine ⟨img', ?_, him', ?_⟩
    · simp only [FastLoadCanvas.saveRows, hrow, hrec]
    · intro px py
      rw [hpix' px py]
      by_cases hpy : py < n
      · by_cases hpx1 : lx + 1 ≤ px ∧ px < lx + 1 + rrest.length
        · rw [if_pos ⟨hpx1.1, hpx1.2, hpy⟩, if_pos ⟨by omega, by omega, hpy⟩]
          rw [show px - lx = (px - (lx + 1)) + 1 from by omega,
            List.getElem?_cons_succ]
        · rw [if_neg (fun hcon => hpx1 ⟨hcon.1, hcon.2.1⟩)]
          rw [hpix1]
          by_cases hpx : px = lx
          · subst hpx
            rw [if_pos ⟨rfl, Nat.zero_le py, by omega⟩,
              if_pos ⟨le_refl px, by omega, hpy⟩]
            simp [Nat.sub_self]
          · rw [if_neg (fun hcon => hpx hcon.1),
              if_neg (fun hcon => hpx1 ⟨by omega, by omega⟩)]
      · rw [if_neg (fun hcon => hpy hcon.2.2)]
        rw [hpix1, if_neg (fun hcon => hpy (by omega)),
          if_neg (fun hcon => hpy hcon.2.2)]

lemma save_ok (a : Area) (hsq : a.sizeX = a.sizeY) (g : Grid)
    (hg : GridShape a g) (hcolors : ∀ row ∈ g, ∀ c ∈ row, c < 16) :
    ∃ img', FastLoadCanvas.save a g = .ok img' ∧
      ImgShape a.sizeX a.sizeX img' ∧
      ∀ px py, pix img' px py =
        if px < a.sizeX ∧ py < a.sizeX then (cell g px py).map colorD
        else none := by
  have hglen : g.length = a.sizeY := hg.1
  have him0 : ImgShape a.sizeX a.sizeX
      (List.replicate a.sizeY (List.replicate a.sizeX ((0, 0, 0) : RGB))) := by
    refine ⟨by simp [hsq], ?_⟩
    intro row hrow
    rw [List.eq_of_mem_replicate hrow]
    simp
  obtain ⟨img', hrun, him', hpix'⟩ :=
    saveRows_ok a.sizeX g 0 _ him0 (by omega) (fun row hr => hg.2 row hr) hcolors
  refine ⟨img', hrun, him', fun px py => ?_⟩
  rw [hpix' px py]
  by_cases hc : px < a.sizeX ∧ py < a.sizeX
  · rw [if_pos ⟨Nat.zero_le px, by omega, hc.2⟩, if_pos hc, Nat.sub_zero]
    unfold cell
    cases hrowq : g[px]? with
    | none => simp
    | some row => simp
  · rw [if_neg (fun hcon => hc ⟨by omega, hcon.2.2⟩), if_neg hc]
    unfold pix
    rcases not_and_or.mp hc with h | h
    · by_cases hpy : py < a.sizeY
      · rw [List.getElem?_replicate, if_pos hpy]
        simp only [Option.some_bind]
        rw [List.getElem?_replicate, if_neg (by omega)]
      · rw [List.getElem?_replicate, if_neg hpy]
        rfl
    · rw [List.getElem?_replicate, if_neg (by omega)]
      rfl

lemma saveRow_err (n lx : Nat) (hlx : lx < n) :
    ∀ (row : List Nat) (ly : Nat) (img : Image), ImgShape n n img →
      ly + row.length ≤ n → (∃ c ∈ row, 16 ≤ c) →
      FastLoadCanvas.saveRow lx row ly img = .error .keyError := by
  intro row
  induction row with
  | nil => intro ly img _ _ hbad; simp at hbad
  | cons c rest ihr =>
    intro ly img him hlen hbad
    have hlc : (c :: rest).length = rest.length + 1 := rfl
    by_cases hc : 16 ≤ c
    · have hnone := COLORS_eq_none_of_ge hc
      simp only [FastLoadCanvas.saveRow, hnone]
    · have hc16 : c < 16 := by omega
      have hcol := COLORS_eq_some_of_lt hc16
      have hly : ly < n := by omega
      obtain ⟨img1, hput, him1, _⟩ := putpixel_ok n img him lx ly hlx hly (colorD c)
      have hbad' : ∃ c' ∈ rest, 16 ≤ c' := by
        obtain ⟨c', hc', hge⟩ := hbad
        rcases List.mem_cons.mp hc' with h | h
        · rw [h] at hge; exact absurd hge hc
        · exact ⟨c', h, hge⟩
      simp only [FastLoadCanvas.saveRow, hcol, hput]
      exact ihr (ly + 1) img1 him1 (by omega) hbad'

lemma saveRows_err (n : Nat) :
    ∀ (rows : Grid) (lx : Nat) (img : Image), ImgShape n n img →
      lx + rows.length ≤ n → (∀ row ∈ rows, row.length = n) →
      (∃ row ∈ rows, ∃ c ∈ row, 16 ≤ c) →
      FastLoadCanvas.saveRows rows lx img = .error .keyError := by
  intro rows
  induction rows with
  | nil => intro lx img _ _ _ hbad; simp at hbad
  | cons row rrest ihr =>
    intro lx img him hlen hrowlen hbad
    have hlr : (row :: rrest).length = rrest.length + 1 := rfl
    have hlx : lx < n := by omega
    have hrl : row.length = n := hrowlen row (by simp)
    by_cases hrow : ∃ c ∈ row, 16 ≤ c
    · have herr := saveRow_err n lx hlx row 0 img him (by omega) hrow
      simp only [FastLoadCanvas.saveRows, herr]
    · push_neg at hrow
      obtain ⟨img1, hput, him1, _⟩ :=
        saveRow_ok n lx hlx row 0 img him (by omega) hrow
      simp only [FastLoadCanvas.saveRows, hput]
      have hbad' : ∃ r ∈ rrest, ∃ c ∈ r, 16 ≤ c := by
        obtain ⟨r, hr, hcc⟩ := hbad
        rcases List.mem_cons.mp hr with h | h
        · subst h
          obtain ⟨c, hc1, hc2⟩ := hcc
          exact absurd hc2 (Nat.not_le.mpr (hrow c hc1))
        · exact ⟨r, h, hcc⟩
      exact ihr (lx + 1) img1 him1 (by omega)
        (fun r hr => hrowlen r (by simp [hr])) hbad'

lemma cell_some_mem (g : Grid) (lx ly c : Nat) (h : cell g lx ly = some c) :
    ∃ row ∈ g, c ∈ row := by
  unfold cell at h
  cases hq : g[lx]? with
  | none => rw [hq] at h; cases h
  | some row =>
    rw [hq] at h
    simp only [Option.some_bind] at h
    exact ⟨row, List.getElem?_mem hq, List.getElem?_mem h⟩

/-- The coupling invariant of the live-render strategy: the raster always
shows the palette image of the code grid. -/
def LiveInv (a : Area) (st : FastSaveCanvas) : Prop :=
  GridShape a st.pixels ∧ ImgShape a.sizeX a.sizeX st.image ∧
  ∀ px py, px < a.sizeX → py < a.sizeX →
    pix st.image px py = (cell st.pixels px py).map colorD

lemma liveInv_init (a : Area) (hsq : a.sizeX = a.sizeY) :
    LiveInv a (FastSaveCanvas.init a) := by
  refine ⟨gridShape_init a, ⟨by simp [FastSaveCanvas.init, hsq], ?_⟩, ?_⟩
  · intro row hrow
    rw [List.eq_of_mem_replicate hrow]
    simp
  · intro px py hpx hpy
    have hcell := cell_init a px py (by omega) (by omega)
    unfold FastSaveCanvas.init at hcell ⊢
    rw [hcell]
    unfold pix
    rw [List.getElem?_replicate, if_pos (by omega)]
    simp only [Option.some_bind]
    rw [List.getElem?_replicate, if_pos hpx]
    rfl

lemma liveSet_ok (a : Area) (hsq : a.sizeX = a.sizeY) (st : FastSaveCanvas)
    (hinv : LiveInv a st) (r : Record) (hc : r.color < 16) :
    ∃ st', liveSet a st r = .ok st' ∧ LiveInv a st' ∧
      deferredSet a st.pixels r = .ok st'.pixels := by
  obtain ⟨⟨hlen, hrows⟩, him, hpix⟩ := hinv
  have hsx : a.sizeX = a.x2 - a.x1 + 1 := rfl
  have hsy : a.sizeY = a.y2 - a.y1 + 1 := rfl
  unfold liveSet FastSaveCanvas.set deferredSet BaseCanvas.set
  by_cases hx : r.x < a.x1 ∨ a.x2 < r.x
  · exact ⟨st, by simp [hx], ⟨⟨hlen, hrows⟩, him, hpix⟩, by simp [hx]⟩
  · by_cases hy : r.y < a.y1 ∨ a.y2 < r.y
    · exact ⟨st, by simp [hx, hy], ⟨⟨hlen, hrows⟩, him, hpix⟩, by simp [hx, hy]⟩
    · have hlx : r.x - a.x1 < st.pixels.length := by omega
      have hrowlen : (st.pixels[r.x - a.x1]).length = a.sizeX :=
        hrows _ (List.getElem_mem hlx)
      have hly : r.y - a.y1 < (st.pixels[r.x - a.x1]).length := by omega
      have hget : st.pixels[r.x - a.x1]? = some st.pixels[r.x - a.x1] :=
        List.getElem?_eq_getElem hlx
      have hcol := COLORS_eq_some_of_lt hc
      have hlxn : r.x - a.x1 < a.sizeX := by omega
      have hlyn : r.y - a.y1 < a.sizeX := by omega
      obtain ⟨img', hput, him', hpixu⟩ :=
        putpixel_ok a.sizeX st.image him (r.x - a.x1) (r.y - a.y1)
          hlxn hlyn (colorD r.color)
      refine ⟨⟨st.pixels.set (r.x - a.x1)
          ((st.pixels[r.x - a.x1]).set (r.y - a.y1) r.color), img'⟩,
        ?_, ⟨⟨by simp [hlen], ?_⟩, him', ?_⟩, ?_⟩
      · simp only [if_neg hx, if_neg hy, hget, if_pos hly, hcol, hput]
      · intro row hrow
        rcases List.mem_or_eq_of_mem_set hrow with h | h
        · exact hrows _ h
        · rw [h]; simp [hrowlen]
      · intro px py hpx hpy
        rw [hpixu px py]
        by_cases hcl : px = r.x - a.x1 ∧ py = r.y - a.y1
        · rw [if_pos hcl]
          obtain ⟨hc1, hc2⟩ := hcl
          subst hc1; subst hc2
          unfold cell
          rw [List.getElem?_set_eq hlx]
          simp [List.getElem?_set_eq hly]
        · rw [if_neg hcl, hpix px py hpx hpy]
          unfold cell
          by_cases hpxe : px = r.x - a.x1
          · subst hpxe
            rw [List.getElem?_set_eq hlx]
            have hpye : py ≠ r.y - a.y1 := fun h => hcl ⟨rfl, h⟩
            simp [List.getElem?_set_ne
              (show r.y - a.y1 ≠ py from fun h => hpye h.symm), hget]
          · rw [List.getElem?_set_ne
              (show r.x - a.x1 ≠ px from fun h => hpxe h.symm)]
      · simp only [if_neg hx, if_neg hy, hget, if_pos hly]

lemma replay_live (a : Area) (hsq : a.sizeX = a.sizeY) :
    ∀ (events : List Record) (st : FastSaveCanvas), LiveInv a st →
      (∀ r ∈ events, r.color < 16) →
      ∃ st', replayE (liveSet a) st events = .ok st' ∧ LiveInv a st' ∧
        replayE (deferredSet a) st.pixels events = .ok st'.pixels := by
  intro events
  induction events with
  | nil => intro st hinv _; exact ⟨st, rfl, hinv, rfl⟩
  | cons r rest ihr =>
    intro st hinv hcolors
    obtain ⟨st1, hset, hinv1, hgrid⟩ :=
      liveSet_ok a hsq st hinv r (hcolors r (by simp))
    obtain ⟨st', hrep, hinv', hgrid'⟩ :=
      ihr st1 hinv1 (fun r' hr' => hcolors r' (by simp [hr']))
    refine ⟨st', ?_, hinv', ?_⟩
    · simp only [replayE, hset]
      exact hrep
    · simp only [replayE, hgrid]
      exact hgrid'

lemma deferredSet_colors (a : Area) (g g' : Grid) (r : Record)
    (hg : ∀ row ∈ g, ∀ c ∈ row, c < 16) (hc : r.color < 16)
    (h : deferredSet a g r = .ok g') : ∀ row ∈ g', ∀ c ∈ row, c < 16 := by
  unfold deferredSet BaseCanvas.set at h
  dsimp only at h
  by_cases hx : r.x < a.x1 ∨ a.x2 < r.x
  · rw [if_pos hx] at h; cases h; exact hg
  · rw [if_neg hx] at h
    by_cases hy : r.y < a.y1 ∨ a.y2 < r.y
    · rw [if_pos hy] at h; cases h; exact hg
    · rw [if_neg hy] at h
      cases hq : g[r.x - a.x1]? with
      | none => rw [hq] at h; cases h
      | some row =>
        rw [hq] at h
        dsimp only at h
        by_cases hlt : r.y - a.y1 < row.length
        · rw [if_pos hlt] at h
          cases h
          intro row' hrow' c hc'
          rcases List.mem_or_eq_of_mem_set hrow' with h1 | h1
          · exact hg row' h1 c hc'
          · subst h1
            rcases List.mem_or_eq_of_mem_set hc' with h2 | h2
            · exact hg row (List.getElem?_mem hq) c h2
            · subst h2; exact hc
        · rw [if_neg hlt] at h; cases h

lemma replay_colors (a : Area) :
    ∀ (events : List Record) (g g' : Grid),
      (∀ row ∈ g, ∀ c ∈ row, c < 16) → (∀ r ∈ events, r.color < 16) →
      replayE (deferredSet a) g events = .ok g' →
      ∀ row ∈ g', ∀ c ∈ row, c < 16 := by
  intro events
  induction events with
  | nil =>
    intro g g' hg _ h
    simp only [replayE] at h
    cases h
    exact hg
  | cons r rest ihr =>
    intro g g' hg hc h
    simp only [replayE] at h
    cases hq : deferredSet a g r with
    | error e => rw [hq] at h; cases h
    | ok g1 =>
      rw [hq] at h
      exact ihr g1 g'
        (deferredSet_colors a g g1 r hg (hc r (by simp)) hq)
        (fun r' hr' => hc r' (by simp [hr'])) h

lemma img_ext (n : Nat) (i1 i2 : Image) (h1 : ImgShape n n i1)
    (h2 : ImgShape n n i2)
    (hpix : ∀ px py, px < n → py < n → pix i1 px py = pix i2 px py) :
    i1 = i2 := by
  have hl1 := h1.1
  have hl2 := h2.1
  apply List.ext_getElem?
  intro py
  by_cases hpy : py < n
  · have hb1 : py < i1.length := by omega
    have hb2 : py < i2.length := by omega
    rw [List.getElem?_eq_getElem hb1, List.getElem?_eq_getElem hb2]
    have hr1 : (i1[py]).length = n := h1.2 _ (List.getElem_mem hb1)
    have hr2 : (i2[py]).length = n := h2.2 _ (List.getElem_mem hb2)
    congr 1
    apply List.ext_getElem?
    intro px
    by_cases hpx : px < n
    · have hp := hpix px py hpx hpy
      unfold pix at hp
      rw [List.getElem?_eq_getElem hb1, List.getElem?_eq_getElem hb2] at hp
      simpa using hp
    · rw [List.getElem?_eq_none (by omega), List.getElem?_eq_none (by omega)]
  · rw [List.getElem?_eq_none (by omega), List.getElem?_eq_none (by omega)]

/-- C2 (amended).  On a valid square area, for event sequences whose
records carry palette colors (0–15), the Deferred-Render and Live-Render
pipelines both succeed and produce pixel-identical RGB output at every
point of the sequence. -/
theorem render_strategies_agree_square (a : Area) (hv : a.valid)
    (hsq : a.sizeX = a.sizeY) (events : List Record)
    (hcolors : ∀ r ∈ events, r.color < 16) :
    (∃ img, renderLive a events = .ok img) ∧
    renderDeferred a events = renderLive a events := by
  obtain ⟨st', hrep, hinv', hgrid⟩ :=
    replay_live a hsq events (FastSaveCanvas.init a) (liveInv_init a hsq)
      hcolors
  have hlive : renderLive a events = .ok st'.image := by
    unfold renderLive
    rw [hrep]
    rfl
  have hginit : ∀ row ∈ BaseCanvas.init a, ∀ c ∈ row, c < 16 := by
    intro row hrow c hc
    rw [List.eq_of_mem_replicate hrow] at hc
    rw [List.eq_of_mem_replicate hc]
    omega
  have hgrid2 : replayE (deferredSet a) (BaseCanvas.init a) events =
      .ok st'.pixels := hgrid
  have hcolors' := replay_colors a events (BaseCanvas.init a) st'.pixels
    hginit hcolors hgrid2
  obtain ⟨imgD, hsave, himD, hpixD⟩ := save_ok a hsq st'.pixels hinv'.1 hcolors'
  have hdef : renderDeferred a events = .ok imgD := by
    unfold renderDeferred
    rw [hgrid2]
    exact hsave
  refine ⟨⟨st'.image, hlive⟩, ?_⟩
  rw [hdef, hlive]
  congr 1
  apply img_ext a.sizeX imgD st'.image himD hinv'.2.1
  intro px py hpx hpy
  rw [hpixD px py, if_pos ⟨hpx, hpy⟩, hinv'.2.2 px py hpx hpy]

/-- Counterexample to C2 as stated: on the non-square area `(0,0)-(1,0)`
the two strategies already disagree on the empty event sequence — the
deferred render raises `IndexError` (its save loop walks the transposed
grid), while the live render returns the all-white 2×1 raster. -/
theorem render_strategies_differ_nonsquare :
    renderDeferred ⟨0, 0, 1, 0⟩ [] ≠ renderLive ⟨0, 0, 1, 0⟩ [] ∧
    renderDeferred ⟨0, 0, 1, 0⟩ [] = .error .indexError ∧
    renderLive ⟨0, 0, 1, 0⟩ [] =
      .ok [[(255, 255, 255), (255, 255, 255)]] := by
  decide

/-- Witness for C2 (amended): the two pipelines agree on the square area
`(0,0)-(1,1)` for the stream `[(5,0,1,3)]`. -/
theorem render_strategies_agree_square_witness :
    (∃ img, renderLive ⟨0, 0, 1, 1⟩ [⟨5, 0, 1, 3⟩] = .ok img) ∧
    renderDeferred ⟨0, 0, 1, 1⟩ [⟨5, 0, 1, 3⟩] =
      renderLive ⟨0, 0, 1, 1⟩ [⟨5, 0, 1, 3⟩] :=
  render_strategies_agree_square ⟨0, 0, 1, 1⟩ (by decide) (by decide)
    [⟨5, 0, 1, 3⟩] (by decide)

/-- C9 (amended).  A color code outside 0–15 written inside the region is
rejected immediately (at `set` time, with `KeyError`) only under the
Live-Render strategy; under the Deferred-Render strategy the same `set`
succeeds, storing the invalid code silently, and the error surfaces only
when `save` later renders the grid. -/
theorem invalid_color_error_timing (a : Area) (hsq : a.sizeX = a.sizeY)
    (st : FastSaveCanvas) (hinv : LiveInv a st) (g : Grid)
    (hg : GridShape a g) (x y color : Nat)
    (h1 : a.x1 ≤ x) (h2 : x ≤ a.x2) (h3 : a.y1 ≤ y) (h4 : y ≤ a.y2)
    (hc : 16 ≤ color) :
    FastSaveCanvas.set a st x y color = .error .keyError ∧
    ∃ g', BaseCanvas.set a g x y color = .ok g' ∧
      cell g' (x - a.x1) (y - a.y1) = some color ∧
      FastLoadCanvas.save a g' = .error .keyError := by
  obtain ⟨⟨hlen, hrows⟩, him, hpix⟩ := hinv
  have hsx : a.sizeX = a.x2 - a.x1 + 1 := rfl
  have hsy : a.sizeY = a.y2 - a.y1 + 1 := rfl
  have hx : ¬(x < a.x1 ∨ a.x2 < x) := by omega
  have hy : ¬(y < a.y1 ∨ a.y2 < y) := by omega
  constructor
  · have hlx : x - a.x1 < st.pixels.length := by omega
    have hget : st.pixels[x - a.x1]? = some st.pixels[x - a.x1] :=
      List.getElem?_eq_getElem hlx
    have hrowlen : (st.pixels[x - a.x1]).length = a.sizeX :=
      hrows _ (List.getElem_mem hlx)
    have hly : y - a.y1 < (st.pixels[x - a.x1]).length := by omega
    have hnone := COLORS_eq_none_of_ge hc
    unfold FastSaveCanvas.set
    simp only [if_neg hx, if_neg hy, hget, if_pos hly, hnone]
  · obtain ⟨g', hset, hshape', hcell⟩ :=
      deferredSet_square a hsq g hg ⟨0, x, y, color⟩
    have ht : targets a (x - a.x1) (y - a.y1) ⟨0, x, y, color⟩ = true := by
      unfold targets
      rw [decide_eq_true_eq]
      exact ⟨h1, h2, h3, h4, rfl, rfl⟩
    have hcellc : cell g' (x - a.x1) (y - a.y1) = some color := by
      rw [hcell]
      simp [ht]
    obtain ⟨row, hrowm, hcm⟩ := cell_some_mem g' _ _ color hcellc
    refine ⟨g', hset, hcellc, ?_⟩
    unfold FastLoadCanvas.save
    apply saveRows_err a.sizeX g' 0
    · refine ⟨by simp [hsq], ?_⟩
      intro row' hrow'
      rw [List.eq_of_mem_replicate hrow']
      simp
    · have := hshape'.1
      omega
    · exact fun row' hr => hshape'.2 row' hr
    · exact ⟨row, hrowm, color, hcm, hc⟩

/-- Counterexample to C9 as stated: the record `(0,0,0,16)` on the 1×1
area is stored silently by the deferred-render `set` (no error at apply
time) and the `KeyError` only surfaces at the later render. -/
theorem invalid_color_stored_silently :
    BaseCanvas.set ⟨0, 0, 0, 0⟩ [[0]] 0 0 16 = .ok [[16]] ∧
    FastLoadCanvas.save ⟨0, 0, 0, 0⟩ [[16]] = .error .keyError ∧
    FastSaveCanvas.set ⟨0, 0, 0, 0⟩ (FastSaveCanvas.init ⟨0, 0, 0, 0⟩)
      0 0 16 = .error .keyError := by
  decide

/-- Witness for C9 (amended): the concrete instance on the 1×1 area. -/
theorem invalid_color_error_timing_witness :
    FastSaveCanvas.set ⟨0, 0, 0, 0⟩ (FastSaveCanvas.init ⟨0, 0, 0, 0⟩)
      0 0 16 = .error .keyError ∧
    ∃ g', BaseCanvas.set ⟨0, 0, 0, 0⟩ [[0]] 0 0 16 = .ok g' ∧
      cell g' 0 0 = some 16 ∧
      FastLoadCanvas.save ⟨0, 0, 0, 0⟩ g' = .error .keyError :=
  invalid_color_error_timing ⟨0, 0, 0, 0⟩ (by decide)
    (FastSaveCanvas.init ⟨0, 0, 0, 0⟩) (liveInv_init ⟨0, 0, 0, 0⟩ (by decide))
    [[0]] (by decide) 0 0 16 (by decide) (by decide) (by decide) (by decide)
    (by decide)
